import Mathlib

/-!
Shallow embedding of the resumable, folder-sharded download pipeline of the
data-downloader-for-videollm repository: the shard allocator (FolderManager in
Molmo-2/download_youtube_.py), the work ledger (DownloadLogger in
Molmo-2/Siam-server/download_manager.py), the fetch worker (download_video)
and the coordinator loop (run_download), together with proofs of the
testable properties stated for them.
-/

set_option maxHeartbeats 1000000

namespace VideoDL

/-! ### Python string primitives used by the scripts -/

/-- Whitespace characters removed by the Python method str.strip. -/
def pyIsSpace (c : Char) : Bool :=
  c == ' ' || c == '\t' || c == '\n' || c == '\r' || c == '\x0b' || c == '\x0c'

/-- Python str.strip: drop whitespace from both ends of a string. -/
def pyStrip (s : String) : String :=
  ⟨((s.data.dropWhile pyIsSpace).reverse.dropWhile pyIsSpace).reverse⟩

/-- Python line.split on a tab character, first field. -/
def firstTabField (s : String) : String :=
  ⟨s.data.takeWhile (fun c => c != '\t')⟩

/-- Python s.rsplit on a dash with maxsplit 1, last component:
the part of the string after the last dash (the whole string if no dash). -/
def afterLastDash (cs : List Char) : List Char :=
  (cs.reverse.takeWhile (fun c => c != '-')).reverse

/-- Numeric value of a decimal digit character. -/
def digitVal (c : Char) : Nat := c.toNat - 48

/-- Python int() applied to a string: succeeds on a nonempty all-digit
string, with the usual left-to-right decimal evaluation; none models the
ValueError raised otherwise. -/
def parseNatQ (cs : List Char) : Option Nat :=
  if cs ≠ [] ∧ cs.all Char.isDigit then
    some (cs.foldl (fun acc c => 10 * acc + digitVal c) 0)
  else
    none

/-- Decimal digit characters of n, most significant first; the first
argument is structural fuel (adequate whenever n is at most the fuel). -/
def natDigitsAux : Nat → Nat → List Char
  | 0, _ => []
  | _ + 1, 0 => []
  | fuel + 1, n + 1 =>
    natDigitsAux fuel ((n + 1) / 10) ++ [Nat.digitChar ((n + 1) % 10)]

/-- Decimal digit characters of n, most significant first; empty for 0. -/
def digitChars (n : Nat) : List Char := natDigitsAux n n

/-- The Python format specification 03d: the decimal digits of n
left-padded with zero characters to width 3. -/
def pad3 (n : Nat) : String :=
  ⟨List.replicate (3 - (digitChars n).length) '0' ++ digitChars n⟩

/-- The shard folder name built by the scripts from a base name and a
shard ordinal, as in the Python format string base-{index:03d}. -/
def folderNameOf (base : String) (idx : Nat) : String :=
  base ++ "-" ++ pad3 idx

/-- The ordinal a shard name parses back to, following the recovery code:
int applied to name.rsplit of dash, maxsplit 1, last component; none
models the ValueError branch. -/
def parseFolderOrd (s : String) : Option Nat :=
  parseNatQ (afterLastDash s.data)

/-- Total version of parseFolderOrd used to state ordering facts. -/
def ordOf (s : String) : Nat := (parseFolderOrd s).getD 0

/-! ### Supporting lemmas on the string primitives -/

theorem takeWhile_append_all {α : Type} (p : α → Bool) :
    ∀ (l1 l2 : List α), (∀ a ∈ l1, p a = true) →
      (l1 ++ l2).takeWhile p = l1 ++ l2.takeWhile p := by
  intro l1
  induction l1 with
  | nil => intro l2 _; simp
  | cons a t ih =>
    intro l2 h
    have ha : p a = true := h a (by simp)
    simp [List.takeWhile_cons, ha]
    exact ih l2 (fun b hb => h b (by simp [hb]))

theorem dropWhile_self_append {α : Type} (p : α → Bool) :
    ∀ l : List α, ∃ t, l = t ++ l.dropWhile p := by
  intro l
  induction l with
  | nil => exact ⟨[], rfl⟩
  | cons a t ih =>
    by_cases ha : p a = true
    · obtain ⟨u, hu⟩ := ih
      exact ⟨a :: u, by simp [List.dropWhile_cons, ha, ← hu]⟩
    · exact ⟨[], by simp [List.dropWhile_cons, ha]⟩

theorem dropWhile_idem {α : Type} (p : α → Bool) (l : List α) :
    (l.dropWhile p).dropWhile p = l.dropWhile p := by
  induction l with
  | nil => rfl
  | cons a t ih =>
    by_cases ha : p a = true
    · simp [List.dropWhile_cons, ha, ih]
    · simp [List.dropWhile_cons, ha]

theorem dropWhile_fixed_head {α : Type} (p : α → Bool) (a : α) (t : List α)
    (h : (a :: t).dropWhile p = a :: t) : p a = false := by
  by_cases ha : p a = true
  · exfalso
    rw [List.dropWhile_cons, if_pos ha] at h
    have h2 : (t.dropWhile p).length ≤ t.length :=
      (List.dropWhile_sublist p).length_le
    rw [h] at h2
    simp at h2
  · simpa using ha

/-- Auxiliary: dropping leading whitespace, then trailing, leaves a list
whose leading side is already clean. -/
theorem dropWhile_trailing_of_fixed {α : Type} (p : α → Bool) (x : List α)
    (hx : x.dropWhile p = x) :
    ((x.reverse.dropWhile p).reverse).dropWhile p = (x.reverse.dropWhile p).reverse := by
  obtain ⟨t, ht⟩ := dropWhile_self_append p x.reverse
  cases hd : (x.reverse.dropWhile p).reverse with
  | nil => simp
  | cons a u =>
    have hxsplit : x = a :: (u ++ t.reverse) := by
      have hx2 : x = (x.reverse.dropWhile p).reverse ++ t.reverse := by
        rw [← List.reverse_append, ← ht, List.reverse_reverse]
      rw [hd] at hx2
      simpa using hx2
    have hpa : p a = false := by
      apply dropWhile_fixed_head p a (u ++ t.reverse)
      rw [← hxsplit]; exact hx
    simp [List.dropWhile_cons, hpa]

theorem strip_key (y : List Char) (hy : y.dropWhile pyIsSpace = y) :
    (((((y.reverse.dropWhile pyIsSpace).reverse).dropWhile pyIsSpace).reverse).dropWhile
        pyIsSpace).reverse
      = (y.reverse.dropWhile pyIsSpace).reverse := by
  rw [dropWhile_trailing_of_fixed pyIsSpace y hy, List.reverse_reverse, dropWhile_idem]

theorem pyStrip_idem (s : String) : pyStrip (pyStrip s) = pyStrip s := by
  cases s with
  | mk d =>
    exact congrArg String.mk (strip_key (d.dropWhile pyIsSpace) (dropWhile_idem pyIsSpace d))

theorem digitVal_digitChar (d : Nat) (hd : d < 10) :
    digitVal (Nat.digitChar d) = d := by
  interval_cases d <;> rfl

theorem digitChar_isDigit (d : Nat) (hd : d < 10) :
    (Nat.digitChar d).isDigit = true := by
  interval_cases d <;> rfl

theorem natDigitsAux_all_digits :
    ∀ (fuel n : Nat), ∀ c ∈ natDigitsAux fuel n, c.isDigit = true := by
  intro fuel
  induction fuel with
  | zero => intro n c hc; simp [natDigitsAux] at hc
  | succ f ih =>
    intro n c hc
    match n with
    | 0 => simp [natDigitsAux] at hc
    | m + 1 =>
      simp only [natDigitsAux, List.mem_append, List.mem_singleton] at hc
      rcases hc with hc | hc
      · exact ih _ c hc
      · rw [hc]
        exact digitChar_isDigit _ (Nat.mod_lt _ (by norm_num))

theorem natDigitsAux_foldl :
    ∀ (fuel n : Nat), n ≤ fuel →
      (natDigitsAux fuel n).foldl (fun acc c => 10 * acc + digitVal c) 0 = n := by
  intro fuel
  induction fuel with
  | zero =>
    intro n hn
    interval_cases n
    rfl
  | succ f ih =>
    intro n hn
    match n with
    | 0 => rfl
    | m + 1 =>
      have hdiv : (m + 1) / 10 ≤ f := by
        have : (m + 1) / 10 < m + 1 := Nat.div_lt_self (by omega) (by norm_num)
        omega
      simp only [natDigitsAux, List.foldl_append, ih _ hdiv, List.foldl_cons, List.foldl_nil]
      rw [digitVal_digitChar _ (Nat.mod_lt _ (by norm_num))]
      exact Nat.div_add_mod (m + 1) 10

theorem digitChars_all_digits (n : Nat) : ∀ c ∈ digitChars n, c.isDigit = true :=
  natDigitsAux_all_digits n n

theorem pad3_all_digits (n : Nat) : ∀ c ∈ (pad3 n).data, c.isDigit = true := by
  intro c hc
  simp only [pad3, List.mem_append] at hc
  rcases hc with hc | hc
  · rw [List.eq_of_mem_replicate hc]; rfl
  · exact digitChars_all_digits n c hc

theorem pad3_ne_nil (n : Nat) : (pad3 n).data ≠ [] := by
  have h : (pad3 n).data.length
      = (3 - (digitChars n).length) + (digitChars n).length := by
    simp [pad3]
  intro hnil
  rw [hnil] at h
  simp at h
  omega

theorem parseNatQ_pad3 (n : Nat) : parseNatQ (pad3 n).data = some n := by
  have hall : (pad3 n).data.all Char.isDigit = true := by
    rw [List.all_eq_true]
    exact pad3_all_digits n
  rw [parseNatQ, if_pos ⟨pad3_ne_nil n, hall⟩]
  congr 1
  show ((List.replicate (3 - (digitChars n).length) '0' ++ digitChars n).foldl
    (fun acc c => 10 * acc + digitVal c) 0) = n
  rw [List.foldl_append]
  have hzero : ∀ z : Nat, (List.replicate z '0').foldl
      (fun acc c => 10 * acc + digitVal c) 0 = 0 := by
    intro z
    induction z with
    | zero => rfl
    | succ k ihk => simpa [List.replicate_succ] using ihk
  rw [hzero]
  exact natDigitsAux_foldl n n (Nat.le_refl n)

theorem afterLastDash_append (pre ds : List Char)
    (h : ∀ c ∈ ds, (c != '-') = true) :
    afterLastDash (pre ++ '-' :: ds) = ds := by
  unfold afterLastDash
  have hrev : (pre ++ '-' :: ds).reverse = ds.reverse ++ '-' :: pre.reverse := by
    simp
  rw [hrev]
  rw [takeWhile_append_all _ ds.reverse ('-' :: pre.reverse)
    (fun c hc => h c (List.mem_reverse.mp hc))]
  have : ('-' :: pre.reverse).takeWhile (fun c => c != '-') = [] := by
    simp [List.takeWhile_cons]
  rw [this]
  simp

theorem string_data_append (a b : String) : (a ++ b).data = a.data ++ b.data := by
  cases a; cases b; rfl

theorem parseFolderOrd_folderNameOf (base : String) (i : Nat) :
    parseFolderOrd (folderNameOf base i) = some i := by
  unfold parseFolderOrd folderNameOf
  rw [string_data_append, string_data_append]
  have hdash : (("-" : String)).data = ['-'] := rfl
  rw [hdash, List.append_assoc]
  have hds : ∀ c ∈ (pad3 i).data, (c != '-') = true := by
    intro c hc
    have := pad3_all_digits i c hc
    cases c with
    | mk v hv =>
      simp only [bne_iff_ne, ne_eq]
      intro hcc
      rw [hcc] at this
      simp [Char.isDigit] at this
  rw [show (['-'] ++ (pad3 i).data) = '-' :: (pad3 i).data from rfl]
  rw [afterLastDash_append base.data (pad3 i).data hds]
  exact parseNatQ_pad3 i

theorem ordOf_folderNameOf (base : String) (i : Nat) :
    ordOf (folderNameOf base i) = i := by
  rw [ordOf, parseFolderOrd_folderNameOf]
  rfl

theorem folderNameOf_inj (base : String) {i j : Nat}
    (h : folderNameOf base i = folderNameOf base j) : i = j := by
  have := congrArg ordOf h
  rwa [ordOf_folderNameOf, ordOf_folderNameOf] at this

/-! ### Shard allocator: FolderManager of Molmo-2/download_youtube_.py

State of the allocator: base folder name, per-folder capacity, the current
shard ordinal and the count of entries already placed into it, plus the
persisted filename to folder-name mapping (a Python dict, modelled as an
order-preserving association list with overwriting insert).  File moves
performed by assign_file are outside the mapping state and not modelled;
the returned folder name is.  load_existing returns the set of already
downloaded ids in the source; here the recovered allocator state is the
object of study. -/

/-- Python dict insertion: overwrite in place if the key is present,
append otherwise. -/
def dictInsert : List (String × String) → String → String → List (String × String)
  | [], k, v => [(k, v)]
  | (k0, v0) :: rest, k, v =>
    if k0 = k then (k, v) :: rest else (k0, v0) :: dictInsert rest k v

structure FolderManager where
  base_name : String
  per_folder : Nat
  current_index : Nat
  current_count : Nat
  mapping : List (String × String)
deriving DecidableEq

/-- The freshly constructed FolderManager of the script: index 1, count 0,
empty mapping. -/
def FolderManager.init (base_name : String) (per_folder : Nat) : FolderManager :=
  { base_name := base_name, per_folder := per_folder,
    current_index := 1, current_count := 0, mapping := [] }

/-- FolderManager.assign_file: record filename to folder-name in the
mapping, bump the count, and advance to the next folder once the count
reaches per_folder.  Returns the new state and the assigned folder name
(the source returns the folder name and destination path). -/
def FolderManager.assign_file (fm : FolderManager) (video_id : String) :
    FolderManager × String :=
  let filename := video_id ++ ".mp4"
  let folder_name := folderNameOf fm.base_name fm.current_index
  let mapping := dictInsert fm.mapping filename folder_name
  let count := fm.current_count + 1
  if fm.per_folder ≤ count then
    ({ fm with
        mapping := mapping
        current_index := fm.current_index + 1
        current_count := 0 }, folder_name)
  else
    ({ fm with mapping := mapping, current_count := count }, folder_name)

/-- Successive assign_file calls, final state. -/
def allocList : FolderManager → List String → FolderManager
  | fm, [] => fm
  | fm, id :: rest => allocList (fm.assign_file id).1 rest

/-- Successive assign_file calls, the sequence of assigned folder names. -/
def allocTrace : FolderManager → List String → List String
  | _, [] => []
  | fm, id :: rest => (fm.assign_file id).2 :: allocTrace (fm.assign_file id).1 rest

/-- The parsed shard ordinals of a persisted mapping, skipping values whose
final dash-component is not an integer (the ValueError branch). -/
def parsedOrds (mapping : List (String × String)) : List Nat :=
  (mapping.map Prod.snd).filterMap parseFolderOrd

/-- FolderManager.load_existing: recover current_index and current_count
from the persisted mapping.  Compute the maximal parsed ordinal and the
number of entries at it; stay on that folder if it has spare capacity,
otherwise advance to a fresh folder. -/
def FolderManager.load_existing (base_name : String) (per_folder : Nat)
    (mapping : List (String × String)) : FolderManager :=
  let ords := parsedOrds mapping
  let max_index := ords.foldl max 0
  if 0 < max_index then
    let last_count := ords.count max_index
    if per_folder ≤ last_count then
      { base_name := base_name, per_folder := per_folder,
        current_index := max_index + 1, current_count := 0, mapping := mapping }
    else
      { base_name := base_name, per_folder := per_folder,
        current_index := max_index, current_count := last_count, mapping := mapping }
  else
    { base_name := base_name, per_folder := per_folder,
      current_index := 1, current_count := 0, mapping := mapping }

/-! ### Allocator stepping lemmas -/

theorem dictInsert_fresh (m : List (String × String)) (k v : String)
    (h : k ∉ m.map Prod.fst) : dictInsert m k v = m ++ [(k, v)] := by
  induction m with
  | nil => rfl
  | cons p rest ih =>
    obtain ⟨k0, v0⟩ := p
    simp only [List.map_cons, List.mem_cons] at h
    push_neg at h
    rw [dictInsert, if_neg (by exact fun hc => h.1 hc.symm)]
    rw [ih h.2]
    rfl

theorem assign_file_snd (fm : FolderManager) (id : String) :
    (fm.assign_file id).2 = folderNameOf fm.base_name fm.current_index := by
  rw [FolderManager.assign_file]
  split <;> rfl

theorem assign_file_base (fm : FolderManager) (id : String) :
    (fm.assign_file id).1.base_name = fm.base_name := by
  rw [FolderManager.assign_file]
  split <;> rfl

theorem assign_file_per (fm : FolderManager) (id : String) :
    (fm.assign_file id).1.per_folder = fm.per_folder := by
  rw [FolderManager.assign_file]
  split <;> rfl

theorem assign_file_mapping (fm : FolderManager) (id : String) :
    (fm.assign_file id).1.mapping
      = dictInsert fm.mapping (id ++ ".mp4")
          (folderNameOf fm.base_name fm.current_index) := by
  rw [FolderManager.assign_file]
  split <;> rfl

theorem assign_file_index_count (fm : FolderManager) (k : Nat) (id : String)
    (hC : 1 ≤ fm.per_folder)
    (hi : fm.current_index = 1 + k / fm.per_folder)
    (hc : fm.current_count = k % fm.per_folder) :
    (fm.assign_file id).1.current_index = 1 + (k + 1) / fm.per_folder ∧
    (fm.assign_file id).1.current_count = (k + 1) % fm.per_folder := by
  have hC0 : 0 < fm.per_folder := hC
  have hr : k % fm.per_folder < fm.per_folder := Nat.mod_lt k hC0
  have hdm := Nat.div_add_mod k fm.per_folder
  rw [FolderManager.assign_file]
  by_cases hfull : fm.per_folder ≤ fm.current_count + 1
  · rw [if_pos hfull]
    rw [hc] at hfull
    have hr1 : k % fm.per_folder = fm.per_folder - 1 := by omega
    have hk1 : k + 1 = fm.per_folder * (k / fm.per_folder) + fm.per_folder := by omega
    constructor
    · show fm.current_index + 1 = 1 + (k + 1) / fm.per_folder
      rw [hk1, Nat.mul_add_div hC0, Nat.div_self hC0, hi]
      omega
    · show 0 = (k + 1) % fm.per_folder
      rw [hk1, Nat.mul_add_mod, Nat.mod_self]
  · rw [if_neg hfull]
    rw [hc] at hfull
    have hk1 : k + 1
        = fm.per_folder * (k / fm.per_folder) + (k % fm.per_folder + 1) := by omega
    constructor
    · show fm.current_index = 1 + (k + 1) / fm.per_folder
      rw [hk1, Nat.mul_add_div hC0,
        Nat.div_eq_of_lt (show k % fm.per_folder + 1 < fm.per_folder by omega), hi]
      omega
    · show fm.current_count + 1 = (k + 1) % fm.per_folder
      rw [hk1, Nat.mul_add_mod,
        Nat.mod_eq_of_lt (show k % fm.per_folder + 1 < fm.per_folder by omega), hc]

theorem allocTrace_aligned :
    ∀ (ids : List String) (fm : FolderManager) (k : Nat),
      1 ≤ fm.per_folder →
      fm.current_index = 1 + k / fm.per_folder →
      fm.current_count = k % fm.per_folder →
      allocTrace fm ids = (List.range ids.length).map
        (fun j => folderNameOf fm.base_name (1 + (k + j) / fm.per_folder)) := by
  intro ids
  induction ids with
  | nil => intro fm k _ _ _; rfl
  | cons id rest ih =>
    intro fm k hC hi hc
    have hstep := assign_file_index_count fm k id hC hi hc
    have hper := assign_file_per fm id
    have hbase := assign_file_base fm id
    have htail := ih (fm.assign_file id).1 (k + 1) (by rw [hper]; exact hC)
      (by rw [hper]; exact hstep.1) (by rw [hper]; exact hstep.2)
    rw [allocTrace, htail, assign_file_snd fm id, hi, hbase, hper]
    rw [List.length_cons, List.range_succ_eq_map, List.map_cons, List.map_map]
    rw [show k + 0 = k from rfl]
    congr 1
    apply List.map_congr_left
    intro j _
    show folderNameOf fm.base_name (1 + (k + 1 + j) / fm.per_folder)
      = folderNameOf fm.base_name (1 + (k + (j + 1)) / fm.per_folder)
    rw [show k + 1 + j = k + (j + 1) from by omega]

theorem allocList_mapping_aligned :
    ∀ (ids : List String) (fm : FolderManager) (k : Nat),
      1 ≤ fm.per_folder →
      fm.current_index = 1 + k / fm.per_folder →
      fm.current_count = k % fm.per_folder →
      (∀ id ∈ ids, (id ++ ".mp4") ∉ fm.mapping.map Prod.fst) →
      (ids.map (fun id => id ++ ".mp4")).Nodup →
      (allocList fm ids).mapping
        = fm.mapping ++ (ids.map (fun id => id ++ ".mp4")).zip
            ((List.range ids.length).map
              (fun j => folderNameOf fm.base_name (1 + (k + j) / fm.per_folder))) := by
  intro ids
  induction ids with
  | nil => intro fm k _ _ _ _ _; simp [allocList]
  | cons id rest ih =>
    intro fm k hC hi hc hfresh hnd
    have hstep := assign_file_index_count fm k id hC hi hc
    have hper := assign_file_per fm id
    have hbase := assign_file_base fm id
    have hmap : (fm.assign_file id).1.mapping
        = fm.mapping ++ [(id ++ ".mp4", folderNameOf fm.base_name (1 + k / fm.per_folder))] := by
      rw [assign_file_mapping, ← hi]
      exact dictInsert_fresh _ _ _ (hfresh id (by simp))
    simp only [List.map_cons, List.nodup_cons] at hnd
    have hfresh2 : ∀ id2 ∈ rest,
        (id2 ++ ".mp4") ∉ (fm.assign_file id).1.mapping.map Prod.fst := by
      intro id2 hid2
      rw [hmap]
      simp only [List.map_append, List.map_cons, List.map_nil, List.mem_append,
        List.mem_singleton]
      rintro (hin | heq)
      · exact hfresh id2 (by simp [hid2]) hin
      · exact hnd.1 (heq ▸ List.mem_map_of_mem (fun x => x ++ ".mp4") hid2)
    have htail := ih (fm.assign_file id).1 (k + 1) (by rw [hper]; exact hC)
      (by rw [hper]; exact hstep.1) (by rw [hper]; exact hstep.2) hfresh2 hnd.2
    rw [allocList, htail, hmap, hbase, hper]
    rw [List.length_cons, List.range_succ_eq_map, List.map_cons, List.map_cons]
    rw [List.zip_cons_cons, List.map_map]
    rw [List.append_assoc]
    rw [show k + 0 = k from rfl]
    rw [List.singleton_append]
    congr 2
    apply congrArg
    apply List.map_congr_left
    intro j _
    show folderNameOf fm.base_name (1 + (k + 1 + j) / fm.per_folder)
      = folderNameOf fm.base_name (1 + (k + (j + 1)) / fm.per_folder)
    rw [show k + 1 + j = k + (j + 1) from by omega]

/-! ### Counting lemmas for the shard-capacity invariant -/

theorem countP_div_range (N C q : Nat) (hC : 1 ≤ C) :
    (List.range N).countP (fun j => j / C == q) ≤ C := by
  rw [List.countP_eq_length_filter]
  have hnd : ((List.range N).filter (fun j => j / C == q)).Nodup :=
    (List.nodup_range N).filter _
  rw [← List.toFinset_card_of_nodup hnd]
  have hsub : ((List.range N).filter (fun j => j / C == q)).toFinset
      ⊆ Finset.Ico (C * q) (C * q + C) := by
    intro j hj
    rw [List.mem_toFinset, List.mem_filter] at hj
    obtain ⟨_, hjq⟩ := hj
    have hq : j / C = q := by simpa using hjq
    have h1 : C * q ≤ j := by
      have h := Nat.div_mul_le_self j C
      rw [hq] at h
      calc C * q = q * C := Nat.mul_comm C q
        _ ≤ j := h
    have hdm := Nat.div_add_mod j C
    have hmod : j % C < C := Nat.mod_lt j hC
    rw [hq] at hdm
    rw [Finset.mem_Ico]
    omega
  calc ((List.range N).filter (fun j => j / C == q)).toFinset.card
      ≤ (Finset.Ico (C * q) (C * q + C)).card := Finset.card_le_card hsub
    _ = C := by rw [Nat.card_Ico]; omega

theorem listToFinset_map {α β : Type} [DecidableEq α] [DecidableEq β]
    (l : List α) (f : α → β) : (l.map f).toFinset = l.toFinset.image f := by
  ext b
  simp [List.mem_toFinset, Finset.mem_image]

theorem listToFinset_range (n : Nat) : (List.range n).toFinset = Finset.range n := by
  ext j
  simp [List.mem_toFinset, List.mem_range, Finset.mem_range]

theorem image_div_range (N C : Nat) (hC : 1 ≤ C) :
    (Finset.range N).image (fun j => j / C) = Finset.range ((N + C - 1) / C) := by
  ext q
  simp only [Finset.mem_image, Finset.mem_range]
  constructor
  · rintro ⟨i, hi, rfl⟩
    have hN : 1 ≤ N := by omega
    have h2 : i / C ≤ (N - 1) / C := Nat.div_le_div_right (by omega)
    have h3 : (N + C - 1) / C = (N - 1) / C + 1 := by
      rw [show N + C - 1 = (N - 1) + C from by omega, Nat.add_div_right _ (by omega)]
    omega
  · intro hq
    have hN : 1 ≤ N := by
      by_contra hcon
      rw [show N = 0 from by omega] at hq
      rw [show 0 + C - 1 = C - 1 from by omega, Nat.div_eq_of_lt (by omega)] at hq
      omega
    have h3 : (N + C - 1) / C = (N - 1) / C + 1 := by
      rw [show N + C - 1 = (N - 1) + C from by omega, Nat.add_div_right _ (by omega)]
    have hq2 : q ≤ (N - 1) / C := by omega
    have hCq : q * C ≤ N - 1 := (Nat.le_div_iff_mul_le (by omega)).mp hq2
    have hCq2 : C * q ≤ N - 1 := by rwa [Nat.mul_comm] at hCq
    exact ⟨C * q, by omega, Nat.mul_div_cancel_left q (by omega)⟩

theorem appendMp4_injective : Function.Injective (fun id : String => id ++ ".mp4") := by
  intro a b h
  apply String.ext
  have hd := congrArg String.data h
  rw [String.data_append, String.data_append] at hd
  exact List.append_cancel_right hd

/-! ### Claim C1: shard capacity, shard count, monotone ordinals -/

/-- C1 (amended: the allocated ids are pairwise distinct).  Starting from an
empty allocator with capacity C at least 1, after allocating a list of
pairwise-distinct video ids: every shard name occurs at most C times among
the mapping values, the number of distinct shard names is the number of ids
divided by C rounded up, and the ordinals of the assigned shard names never
decrease along the allocation order. -/
theorem claim1_shard_allocator (B : String) (C : Nat) (hC : 1 ≤ C)
    (ids : List String) (hnd : ids.Nodup) :
    (∀ sh : String,
        (allocList (FolderManager.init B C) ids).mapping.countP
          (fun p => p.2 == sh) ≤ C) ∧
    ((allocList (FolderManager.init B C) ids).mapping.map Prod.snd).dedup.length
        = (ids.length + C - 1) / C ∧
    List.Pairwise (fun a b => ordOf a ≤ ordOf b)
      (allocTrace (FolderManager.init B C) ids) := by
  have hC0 : 0 < C := hC
  have hinit_i : (FolderManager.init B C).current_index
      = 1 + 0 / (FolderManager.init B C).per_folder := by
    show 1 = 1 + 0 / C
    rw [Nat.zero_div]
  have hinit_c : (FolderManager.init B C).current_count
      = 0 % (FolderManager.init B C).per_folder := by
    show 0 = 0 % C
    rw [Nat.zero_mod]
  have hfnd : (ids.map (fun id => id ++ ".mp4")).Nodup := hnd.map appendMp4_injective
  have hmap := allocList_mapping_aligned ids (FolderManager.init B C) 0 hC
    hinit_i hinit_c (by intro id _ hin; simp [FolderManager.init] at hin) hfnd
  have htr := allocTrace_aligned ids (FolderManager.init B C) 0 hC hinit_i hinit_c
  have hzero : ∀ j : Nat, 0 + j = j := fun j => Nat.zero_add j
  have hnames : (List.range ids.length).map
        (fun j => folderNameOf (FolderManager.init B C).base_name
          (1 + (0 + j) / (FolderManager.init B C).per_folder))
      = (List.range ids.length).map (fun j => folderNameOf B (1 + j / C)) := by
    apply List.map_congr_left
    intro j _
    rw [hzero j]
    rfl
  rw [hnames] at hmap htr
  have hmap2 : (allocList (FolderManager.init B C) ids).mapping
      = (ids.map (fun id => id ++ ".mp4")).zip
          ((List.range ids.length).map (fun j => folderNameOf B (1 + j / C))) := by
    rw [hmap]
    show [] ++ _ = _
    rw [List.nil_append]
  have hlen : ((List.range ids.length).map
      (fun j => folderNameOf B (1 + j / C))).length
        ≤ (ids.map (fun id => id ++ ".mp4")).length := by
    rw [List.length_map, List.length_map, List.length_range]
  have hsnd : (allocList (FolderManager.init B C) ids).mapping.map Prod.snd
      = (List.range ids.length).map (fun j => folderNameOf B (1 + j / C)) := by
    rw [hmap2]
    exact List.map_snd_zip _ _ hlen
  refine ⟨?_, ?_, ?_⟩
  · intro sh
    have e1 : (allocList (FolderManager.init B C) ids).mapping.countP
        (fun p => p.2 == sh)
        = ((List.range ids.length).map
            (fun j => folderNameOf B (1 + j / C))).countP (fun s => s == sh) := by
      rw [← hsnd]
      exact (List.countP_map (fun s => s == sh) Prod.snd _).symm
    rw [e1, List.countP_map]
    by_cases hex : ∃ j0, j0 < ids.length ∧ folderNameOf B (1 + j0 / C) = sh
    · obtain ⟨j0, _, hj0⟩ := hex
      have hmono : (List.range ids.length).countP
          ((fun s => s == sh) ∘ fun j => folderNameOf B (1 + j / C))
            ≤ (List.range ids.length).countP (fun j => j / C == j0 / C) := by
        apply List.countP_mono_left
        intro j _ hj
        have hjeq : folderNameOf B (1 + j / C) = sh := by
          simpa using hj
        have := folderNameOf_inj B (hjeq.trans hj0.symm)
        simp
        omega
      exact le_trans hmono (countP_div_range ids.length C (j0 / C) hC)
    · have hzero2 : (List.range ids.length).countP
          ((fun s => s == sh) ∘ fun j => folderNameOf B (1 + j / C)) = 0 := by
        apply List.countP_eq_zero.mpr
        intro j hj
        rw [List.mem_range] at hj
        simp only [Function.comp]
        intro hcon
        exact hex ⟨j, hj, by simpa using hcon⟩
      rw [hzero2]
      exact Nat.zero_le C
  · rw [hsnd, ← List.card_toFinset, listToFinset_map, listToFinset_range]
    have hcomp : (fun j => folderNameOf B (1 + j / C))
        = (fun m => folderNameOf B (1 + m)) ∘ (fun j => j / C) := rfl
    rw [hcomp, ← Finset.image_image]
    rw [Finset.card_image_of_injective _ (fun m1 m2 hm => by
      have := folderNameOf_inj B hm
      omega)]
    rw [image_div_range ids.length C hC, Finset.card_range]
  · rw [htr]
    apply List.pairwise_map.mpr
    apply (List.pairwise_lt_range ids.length).imp
    intro i j hij
    rw [ordOf_folderNameOf, ordOf_folderNameOf]
    have := Nat.div_le_div_right (c := C) (Nat.le_of_lt hij)
    omega

/-- C1 as literally stated fails when the same id is allocated twice: with
capacity 1, two successful allocations of one id leave a single mapping
entry, so the number of distinct shard names is 1, not the number of
allocations divided by capacity rounded up (2). -/
theorem claim1_counterexample :
    ((allocList (FolderManager.init ("molmo2-videos") 1) (["a", "a"])).mapping.map
      Prod.snd).dedup.length
      ≠ ((["a", "a"] : List String).length + 1 - 1) / 1 := by
  decide

/-- Witness: claim1_shard_allocator applied at capacity 2 and three
distinct ids. -/
theorem claim1_witness :
    ((allocList (FolderManager.init ("molmo2-videos") 2) (["a", "b", "c"])).mapping.countP
      (fun p => p.2 == ("molmo2-videos-001" : String)) ≤ 2) ∧
    ((allocList (FolderManager.init ("molmo2-videos") 2)
      (["a", "b", "c"])).mapping.map Prod.snd).dedup.length
        = ((["a", "b", "c"] : List String).length + 2 - 1) / 2 ∧
    List.Pairwise (fun a b => ordOf a ≤ ordOf b)
      (allocTrace (FolderManager.init ("molmo2-videos") 2) (["a", "b", "c"])) :=
  ⟨(claim1_shard_allocator ("molmo2-videos") 2 (by decide) (["a", "b", "c"])
      (by decide)).1 ("molmo2-videos-001"),
   (claim1_shard_allocator ("molmo2-videos") 2 (by decide) (["a", "b", "c"])
      (by decide)).2.1,
   (claim1_shard_allocator ("molmo2-videos") 2 (by decide) (["a", "b", "c"])
      (by decide)).2.2⟩

/-! ### Claim C2: allocator recovery from a persisted mapping -/

theorem load_existing_state (B : String) (C K M : Nat)
    (mapping : List (String × String))
    (hK : (parsedOrds mapping).foldl max 0 = K) (hK1 : 1 ≤ K)
    (hM : (parsedOrds mapping).count K = M) :
    FolderManager.load_existing B C mapping
      = if C ≤ M then
          { base_name := B, per_folder := C, current_index := K + 1,
            current_count := 0, mapping := mapping }
        else
          { base_name := B, per_folder := C, current_index := K,
            current_count := M, mapping := mapping } := by
  rw [FolderManager.load_existing]
  simp only [hK, hM]
  rw [if_pos (show 0 < K by omega)]

theorem trace_ords_replicate (B : String) (C K M : Nat) (hC : 1 ≤ C)
    (hK1 : 1 ≤ K) (hM : M < C) (fm : FolderManager)
    (_hb : fm.base_name = B) (hp : fm.per_folder = C)
    (hi : fm.current_index = K) (hc : fm.current_count = M)
    (ids : List String) (hlen : ids.length = C - M + 1) :
    (allocTrace fm ids).map ordOf = List.replicate (C - M) K ++ [K + 1] := by
  have hC0 : 0 < C := hC
  set k0 := C * (K - 1) + M with hk0
  have hdiv : k0 / C = K - 1 := by
    rw [hk0, Nat.mul_add_div hC0, Nat.div_eq_of_lt hM]
    omega
  have hmod : k0 % C = M := by
    rw [hk0, Nat.mul_add_mod, Nat.mod_eq_of_lt hM]
  have htr := allocTrace_aligned ids fm k0 (by rw [hp]; exact hC)
    (by rw [hp, hdiv, hi]; omega) (by rw [hp, hmod, hc])
  rw [htr, List.map_map]
  have hfun : (ordOf ∘ fun j => folderNameOf fm.base_name (1 + (k0 + j) / fm.per_folder))
      = fun j => 1 + (k0 + j) / C := by
    funext j
    show ordOf (folderNameOf fm.base_name (1 + (k0 + j) / fm.per_folder))
      = 1 + (k0 + j) / C
    rw [ordOf_folderNameOf, hp]
  rw [hfun, hlen]
  rw [List.range_succ, List.map_append]
  congr 1
  · apply List.eq_replicate_iff.mpr
    refine ⟨by rw [List.length_map, List.length_range], ?_⟩
    intro b hb2
    rw [List.mem_map] at hb2
    obtain ⟨j, hj, hbj⟩ := hb2
    rw [List.mem_range] at hj
    have hsum : k0 + j = C * (K - 1) + (M + j) := by omega
    have hdj : (k0 + j) / C = K - 1 := by
      rw [hsum, Nat.mul_add_div hC0, Nat.div_eq_of_lt (by omega)]
      omega
    rw [← hbj, hdj]
    omega
  · show List.map (fun j => 1 + (k0 + j) / C) [C - M] = [K + 1]
    rw [List.map_cons, List.map_nil]
    have hsum : k0 + (C - M) = C * (K - 1) + C := by omega
    have hdj : (k0 + (C - M)) / C = K := by
      rw [hsum, Nat.mul_add_div hC0, Nat.div_self hC0]
      omega
    rw [hdj]
    rw [show 1 + K = K + 1 from by omega]

/-- C2: recovery consistency of FolderManager.load_existing.  If the
persisted mapping has maximal parsed shard ordinal K (at least 1) with M
entries at K, then: when M is below the capacity C, the next C - M
allocations are all assigned ordinal K and the following allocation is
assigned ordinal K + 1; when M is at least C, recovery starts a fresh
shard K + 1 with count 0. -/
theorem claim2_recovery (B : String) (C K M : Nat)
    (mapping : List (String × String)) (hC : 1 ≤ C)
    (hK : (parsedOrds mapping).foldl max 0 = K) (hK1 : 1 ≤ K)
    (hM : (parsedOrds mapping).count K = M) :
    (M < C → ∀ ids : List String, ids.length = C - M + 1 →
      (allocTrace (FolderManager.load_existing B C mapping) ids).map ordOf
        = List.replicate (C - M) K ++ [K + 1]) ∧
    (C ≤ M → (FolderManager.load_existing B C mapping).current_index = K + 1 ∧
      (FolderManager.load_existing B C mapping).current_count = 0) := by
  have hstate := load_existing_state B C K M mapping hK hK1 hM
  constructor
  · intro hMC ids hlen
    rw [hstate, if_neg (by omega)]
    exact trace_ords_replicate B C K M hC hK1 hMC _ rfl rfl rfl rfl ids hlen
  · intro hCM
    rw [hstate, if_pos hCM]
    exact ⟨rfl, rfl⟩

/-- Witness: claim2_recovery applied to a mapping with one entry at
ordinal 1 and capacity 2: the next allocation lands at ordinal 1 and the
one after that at ordinal 2. -/
theorem claim2_witness :
    (allocTrace (FolderManager.load_existing ("molmo2-videos") 2
        ([("a.mp4", "molmo2-videos-001")])) (["x", "y"])).map ordOf
      = List.replicate 1 1 ++ [2] :=
  (claim2_recovery ("molmo2-videos") 2 1 1 ([("a.mp4", "molmo2-videos-001")])
    (by decide) (by decide) (by decide) (by decide)).1 (by decide)
    (["x", "y"]) (by decide)

/-! ### Work ledger: DownloadLogger of Molmo-2/Siam-server/download_manager.py

The three log files are modelled by their line contents; an absent file is
none.  The completed log holds one id per line; the failed log holds
id, tab, reason per line; the pending log is written by init_logs and
rewritten by the mark operations. -/

/-- The set of completed ids parsed from the completed log: stripped
nonblank lines (Python: set of line.strip() for nonblank line.strip()). -/
def pyCompletedSet (log : Option (List String)) : List String :=
  ((log.getD []).map pyStrip).filter (fun l => l != "")

/-- The set of failed ids parsed from the failed log: the field before the
first tab of each stripped nonblank line. -/
def pyFailedSet (log : Option (List String)) : List String :=
  ((log.getD []).filter (fun l => pyStrip l != "")).map (fun l => firstTabField (pyStrip l))

/-- DownloadLogger.init_logs: the pending list it computes and writes,
namely all ids that are in neither parsed log (an absent log contributes
the empty set). -/
def init_logs (video_ids : List String)
    (completedLog failedLog : Option (List String)) : List String :=
  video_ids.filter (fun vid =>
    !(pyCompletedSet completedLog).elem vid && !(pyFailedSet failedLog).elem vid)

structure Ledger where
  completedLog : List String
  failedLog : List String
  pendingLog : Option (List String)
deriving DecidableEq

/-- DownloadLogger._remove_from_pending: if the pending log exists, rewrite
it keeping the stripped nonblank lines different from the id. -/
def removeFromPending : Option (List String) → String → Option (List String)
  | none, _ => none
  | some ls, video_id =>
    some ((ls.map pyStrip).filter (fun l => l != "" && l != video_id))

/-- DownloadLogger.mark_completed: append the id to the completed log and
rewrite the pending log without it. -/
def mark_completed (lg : Ledger) (video_id : String) : Ledger :=
  { lg with
      completedLog := lg.completedLog ++ [video_id]
      pendingLog := removeFromPending lg.pendingLog video_id }

/-- DownloadLogger.mark_failed: append id, tab, reason to the failed log
and rewrite the pending log without the id. -/
def mark_failed (lg : Ledger) (video_id error : String) : Ledger :=
  { lg with
      failedLog := lg.failedLog ++ [video_id ++ "\t" ++ error]
      pendingLog := removeFromPending lg.pendingLog video_id }

/-- DownloadLogger.get_pending: stripped nonblank lines of the pending log,
the empty list if the file is absent. -/
def get_pending (lg : Ledger) : List String :=
  ((lg.pendingLog.getD []).map pyStrip).filter (fun l => l != "")

/-- A string with no tab character (true of real video ids); needed when a
failed-log line is parsed back by its first tab field. -/
def tabFree (s : String) : Prop := '\t' ∉ s.data

instance (s : String) : Decidable (tabFree s) := by
  unfold tabFree
  infer_instance

theorem firstTabField_line (v e : String) (hv : tabFree v) :
    firstTabField (v ++ "\t" ++ e) = v := by
  apply String.ext
  show ((v ++ "\t" ++ e)).data.takeWhile (fun c => c != '\t') = v.data
  rw [String.data_append, String.data_append]
  rw [show ("\t" : String).data = ['\t'] from rfl]
  rw [List.append_assoc]
  rw [takeWhile_append_all _ v.data _ (fun c hc => by
    simp only [bne_iff_ne, ne_eq]
    intro hcc
    exact hv (hcc ▸ hc))]
  rw [show (['\t'] ++ e.data) = '\t' :: e.data from rfl]
  rw [List.takeWhile_cons]
  simp

/-! ### Claim C3: ledger initialization -/

theorem mem_pyCompletedSet (log : Option (List String)) (vid : String) :
    vid ∈ pyCompletedSet log
      ↔ ∃ l ∈ log.getD [], pyStrip l ≠ "" ∧ pyStrip l = vid := by
  simp only [pyCompletedSet, List.mem_filter, List.mem_map]
  constructor
  · rintro ⟨⟨l, hl, rfl⟩, hne⟩
    exact ⟨l, hl, by simpa using hne, rfl⟩
  · rintro ⟨l, hl, hne, rfl⟩
    exact ⟨⟨l, hl, rfl⟩, by simpa using hne⟩

theorem mem_pyFailedSet (log : Option (List String)) (vid : String) :
    vid ∈ pyFailedSet log
      ↔ ∃ l ∈ log.getD [], pyStrip l ≠ "" ∧ firstTabField (pyStrip l) = vid := by
  simp only [pyFailedSet, List.mem_map, List.mem_filter]
  constructor
  · rintro ⟨l, ⟨hl, hne⟩, rfl⟩
    exact ⟨l, hl, by simpa using hne, rfl⟩
  · rintro ⟨l, hl, hne, rfl⟩
    exact ⟨l, ⟨hl, by simpa using hne⟩, rfl⟩

/-- C3: init_logs computes pending as exactly the input ids minus the ids
of the completed log (stripped nonblank lines) minus the first-tab fields
of the failed log lines; an absent log contributes nothing, so with both
logs absent every input id is pending. -/
theorem claim3_init_logs (video_ids : List String)
    (completedLog failedLog : Option (List String)) (vid : String) :
    (vid ∈ init_logs video_ids completedLog failedLog
      ↔ vid ∈ video_ids
        ∧ (∀ l ∈ completedLog.getD [], pyStrip l ≠ "" → pyStrip l ≠ vid)
        ∧ (∀ l ∈ failedLog.getD [], pyStrip l ≠ "" → firstTabField (pyStrip l) ≠ vid))
    ∧ init_logs video_ids none none = video_ids := by
  constructor
  · rw [init_logs, List.mem_filter]
    have hc : (!(pyCompletedSet completedLog).elem vid
          && !(pyFailedSet failedLog).elem vid) = true
        ↔ vid ∉ pyCompletedSet completedLog ∧ vid ∉ pyFailedSet failedLog := by
      rw [Bool.and_eq_true, Bool.not_eq_true', Bool.not_eq_true']
      constructor
      · rintro ⟨h1, h2⟩
        constructor
        · intro hin; rw [List.elem_iff.mpr hin] at h1; cases h1
        · intro hin; rw [List.elem_iff.mpr hin] at h2; cases h2
      · rintro ⟨h1, h2⟩
        constructor
        · cases he : (pyCompletedSet completedLog).elem vid
          · rfl
          · exact absurd (List.elem_iff.mp he) h1
        · cases he : (pyFailedSet failedLog).elem vid
          · rfl
          · exact absurd (List.elem_iff.mp he) h2
    rw [hc, mem_pyCompletedSet, mem_pyFailedSet]
    constructor
    · rintro ⟨hmem, hnc, hnf⟩
      refine ⟨hmem, ?_, ?_⟩
      · intro l hl hne heq
        exact hnc ⟨l, hl, hne, heq⟩
      · intro l hl hne heq
        exact hnf ⟨l, hl, hne, heq⟩
    · rintro ⟨hmem, hnc, hnf⟩
      refine ⟨hmem, ?_, ?_⟩
      · rintro ⟨l, hl, hne, heq⟩
        exact hnc l hl hne heq
      · rintro ⟨l, hl, hne, heq⟩
        exact hnf l hl hne heq
  · rw [init_logs]
    apply List.filter_eq_self.mpr
    intro a _
    rfl

/-! ### Claim C5: append-only terminal logs, rewritten pending log -/

/-- C5 as literally stated fails: mark_completed does edit the pending log
file in place (DownloadLogger._remove_from_pending rewrites it), so the
pending-log contents change. -/
theorem claim5_counterexample :
    (mark_completed
        { completedLog := [], failedLog := [], pendingLog := some (["a", "b"]) }
        ("a")).pendingLog
      ≠ some (["a", "b"]) := by
  decide

/-- C5 (amended): the completed and failed logs are append-only under
mark_completed and mark_failed (each appends exactly one line to its own
log and leaves the other unchanged), but the pending log is not left
unchanged: when it exists, both operations rewrite it in place to its
stripped nonblank lines with every line equal to the id removed.  After
the rewrite the id is indeed absent from the pending view. -/
theorem claim5_append_only (lg : Ledger) (id err : String) :
    (mark_completed lg id).completedLog = lg.completedLog ++ [id] ∧
    (mark_completed lg id).failedLog = lg.failedLog ∧
    (mark_failed lg id err).failedLog = lg.failedLog ++ [id ++ "\t" ++ err] ∧
    (mark_failed lg id err).completedLog = lg.completedLog ∧
    (∀ ls, lg.pendingLog = some ls →
      (mark_completed lg id).pendingLog
          = some ((ls.map pyStrip).filter (fun l => l != "" && l != id)) ∧
      (mark_failed lg id err).pendingLog
          = some ((ls.map pyStrip).filter (fun l => l != "" && l != id))) ∧
    id ∉ get_pending (mark_completed lg id) := by
  refine ⟨rfl, rfl, rfl, rfl, ?_, ?_⟩
  · intro ls hls
    rw [mark_completed, mark_failed]
    constructor
    · show removeFromPending lg.pendingLog id = _
      rw [hls]; rfl
    · show removeFromPending lg.pendingLog id = _
      rw [hls]; rfl
  · intro hmem
    rw [get_pending] at hmem
    rw [show (mark_completed lg id).pendingLog
        = removeFromPending lg.pendingLog id from rfl] at hmem
    cases hpd : lg.pendingLog with
    | none => rw [hpd] at hmem; simp [removeFromPending] at hmem
    | some ls =>
      rw [hpd] at hmem
      rw [show removeFromPending (some ls) id
          = some ((ls.map pyStrip).filter (fun l => l != "" && l != id)) from rfl] at hmem
      simp only [Option.getD_some, List.mem_filter, List.mem_map] at hmem
      obtain ⟨⟨x, hx, hxid⟩, _⟩ := hmem
      obtain ⟨⟨l, _, rfl⟩, hxcond⟩ := hx
      rw [pyStrip_idem] at hxid
      rw [Bool.and_eq_true] at hxcond
      rw [hxid] at hxcond
      simp at hxcond

/-! ### Fetch worker: download_video of download_manager.py

The staging directory after the external yt-dlp process has run is a list
of file names with sizes; whether the process timed out and its captured
standard-error text are inputs (the external process is the environment).
The function mirrors the post-processing: candidate search over the
acceptable container extensions with the 10000-byte validity threshold,
rename to the canonical mp4 name, timeout cleanup over the known temp
extensions, and stderr-marker classification. -/

inductive DVOutcome where
  | success (size : Nat)
  | timeout
  | unavailable (error : String)
  | failure (error : String)
deriving DecidableEq

def DVOutcome.isSuccess : DVOutcome → Bool
  | .success _ => true
  | _ => false

/-- Error text carried by each outcome dictionary, as read back by the
coordinator with result.get of the error key. -/
def DVOutcome.errText : DVOutcome → String
  | .success _ => ""
  | .timeout => "Timeout"
  | .unavailable e => e
  | .failure e => e

/-- A staging directory: file names with byte sizes. -/
abbrev Staging := List (String × Nat)

def fsExists (st : Staging) (name : String) : Bool :=
  st.any (fun p => p.1 == name)

def fsGetSize (st : Staging) (name : String) : Nat :=
  ((st.find? (fun p => p.1 == name)).map Prod.snd).getD 0

def fsRemove (st : Staging) (name : String) : Staging :=
  st.filter (fun p => p.1 != name)

/-- os.remove of an existing destination followed by os.rename. -/
def fsRename (st : Staging) (src dst : String) : Staging :=
  (st.filter (fun p => p.1 != src && p.1 != dst)) ++ [(dst, fsGetSize st src)]

/-- The acceptable container extensions scanned for a finished artifact. -/
def checkExts : List String := [".mp4", ".mkv", ".webm"]

/-- The extensions whose files are deleted on timeout. -/
def cleanupExts : List String := [".mp4", ".mkv", ".webm", ".part", ".ytdl"]

/-- Python str.lower over the characters. -/
def pyLower (s : String) : String := ⟨s.data.map Char.toLower⟩

/-- Python substring membership: kw in hay. -/
def strHasSub (needle : List Char) : List Char → Bool
  | [] => needle == []
  | c :: rest => needle.isPrefixOf (c :: rest) || strHasSub needle rest

def unavailMarkers : List String :=
  ["unavailable", "private", "removed", "not available"]

/-- The stderr classification test: any unavailability marker occurs in the
lowercased stderr. -/
def hasUnavailMarker (stderr : String) : Bool :=
  unavailMarkers.any (fun kw => strHasSub kw.data (pyLower stderr).data)

/-- The candidate-artifact search: the first acceptable extension whose
file exists with size strictly above 10000 bytes. -/
def findActualExt (video_id : String) (st : Staging) : Option String :=
  checkExts.find? (fun ext =>
    fsExists st (video_id ++ ext) && decide (10000 < fsGetSize st (video_id ++ ext)))

structure DVResult where
  status : DVOutcome
  staging : Staging
deriving DecidableEq

/-- download_video: on timeout, delete every known temp file of the id and
report timeout; otherwise look for a valid artifact (success, renaming it
to the canonical mp4 name), else classify stderr as unavailable or failed
(with the captured text, or a placeholder when stderr is empty). -/
def download_video (video_id : String) (st : Staging) (timedOut : Bool)
    (stderr : String) : DVResult :=
  if timedOut then
    { status := .timeout
      staging := cleanupExts.foldl (fun acc ext => fsRemove acc (video_id ++ ext)) st }
  else
    match findActualExt video_id st with
    | some ext =>
      { status := .success (fsGetSize st (video_id ++ ext))
        staging :=
          if video_id ++ ext == video_id ++ ".mp4" then st
          else fsRename st (video_id ++ ext) (video_id ++ ".mp4") }
    | none =>
      if hasUnavailMarker stderr then
        { status := .unavailable ("Video unavailable"), staging := st }
      else
        { status := .failure (if stderr == "" then "Unknown" else stderr)
          staging := st }

/-! ### Claims C7 to C10: fetch worker behavior -/

theorem fsExists_fsRemove_self (st : Staging) (n : String) :
    fsExists (fsRemove st n) n = false := by
  rw [Bool.eq_false_iff]
  intro h
  rw [fsExists, List.any_eq_true] at h
  obtain ⟨p, hp, hpn⟩ := h
  rw [fsRemove, List.mem_filter] at hp
  have h1 : p.1 = n := by simpa using hpn
  have h2 : p.1 ≠ n := by simpa using hp.2
  exact h2 h1

theorem fsExists_fsRemove_mono (st : Staging) (n m : String)
    (h : fsExists st n = false) : fsExists (fsRemove st m) n = false := by
  rw [Bool.eq_false_iff]
  intro hcon
  rw [fsExists, List.any_eq_true] at hcon
  obtain ⟨p, hp, hpn⟩ := hcon
  rw [fsRemove, List.mem_filter] at hp
  rw [Bool.eq_false_iff] at h
  exact h (by rw [fsExists, List.any_eq_true]; exact ⟨p, hp.1, hpn⟩)

theorem fsExists_foldl_remove_mono (vid : String) :
    ∀ (exts : List String) (st : Staging) (n : String), fsExists st n = false →
      fsExists (exts.foldl (fun acc e => fsRemove acc (vid ++ e)) st) n = false := by
  intro exts
  induction exts with
  | nil => intro st n h; exact h
  | cons e rest ih =>
    intro st n h
    rw [List.foldl_cons]
    exact ih _ n (fsExists_fsRemove_mono st n (vid ++ e) h)

theorem fsExists_foldl_remove_all (vid : String) :
    ∀ (exts : List String) (st : Staging) (x : String), x ∈ exts →
      fsExists (exts.foldl (fun acc e => fsRemove acc (vid ++ e)) st) (vid ++ x) = false := by
  intro exts
  induction exts with
  | nil => intro st x hx; simp at hx
  | cons e rest ih =>
    intro st x hx
    rw [List.foldl_cons]
    rcases List.mem_cons.mp hx with rfl | hx2
    · exact fsExists_foldl_remove_mono vid rest _ _ (fsExists_fsRemove_self st (vid ++ x))
    · exact ih _ x hx2

/-- C7: on timeout the outcome is Timeout and afterwards no incomplete or
temp file of the id (any of the known artifact and temp extensions)
remains in the staging directory. -/
theorem claim7_timeout_cleanup (vid : String) (st : Staging) (stderr : String) :
    (download_video vid st true stderr).status = DVOutcome.timeout ∧
    ∀ ext ∈ cleanupExts,
      fsExists (download_video vid st true stderr).staging (vid ++ ext) = false := by
  constructor
  · rfl
  · intro ext hext
    show fsExists (cleanupExts.foldl (fun acc e => fsRemove acc (vid ++ e)) st)
      (vid ++ ext) = false
    exact fsExists_foldl_remove_all vid cleanupExts st ext hext

theorem findActualExt_none (vid : String) (st : Staging)
    (h : ∀ ext ∈ checkExts, fsExists st (vid ++ ext) = true →
      ¬ 10000 < fsGetSize st (vid ++ ext)) :
    findActualExt vid st = none := by
  rw [findActualExt, List.find?_eq_none]
  intro ext hext
  intro hcon
  rw [Bool.and_eq_true] at hcon
  obtain ⟨he, hlt⟩ := hcon
  exact h ext hext he (of_decide_eq_true hlt)

/-- C8: when every candidate artifact at the expected paths is strictly
below the 10000-byte threshold, the outcome is never Success. -/
theorem claim8_min_size (vid : String) (st : Staging) (stderr : String)
    (h : ∀ ext ∈ checkExts, fsExists st (vid ++ ext) = true →
      fsGetSize st (vid ++ ext) < 10000) :
    (download_video vid st false stderr).status.isSuccess = false := by
  have hfind : findActualExt vid st = none :=
    findActualExt_none vid st (fun ext hext he => by
      have := h ext hext he
      omega)
  rw [download_video, if_neg Bool.false_ne_true, hfind]
  split
  · rename_i heq
    cases heq
  · split <;> rfl

/-- Witness: claim8_min_size at a staging directory holding a 500-byte
candidate. -/
theorem claim8_witness :
    (download_video ("v") ([(("v.mp4" : String), 500)]) false ("boom")).status.isSuccess
      = false :=
  claim8_min_size ("v") ([(("v.mp4" : String), 500)]) ("boom") (by decide)

/-- C9: with no valid artifact and no timeout, the outcome is Unavailable
exactly when the lowercased stderr contains an unavailability marker, and
Failed with the captured diagnostic text (or the Unknown placeholder for
empty stderr) otherwise; the two outcomes are distinct constructors, hence
mutually exclusive. -/
theorem claim9_classification (vid : String) (st : Staging) (stderr : String)
    (h : ∀ ext ∈ checkExts, fsExists st (vid ++ ext) = true →
      ¬ 10000 < fsGetSize st (vid ++ ext)) :
    (hasUnavailMarker stderr = true →
      (download_video vid st false stderr).status
        = DVOutcome.unavailable ("Video unavailable")) ∧
    (hasUnavailMarker stderr = false →
      (download_video vid st false stderr).status
        = DVOutcome.failure (if stderr == "" then "Unknown" else stderr)) ∧
    (∀ e1 e2 : String, DVOutcome.unavailable e1 ≠ DVOutcome.failure e2) := by
  have hfind : findActualExt vid st = none := findActualExt_none vid st h
  refine ⟨?_, ?_, ?_⟩
  · intro hm
    rw [download_video, if_neg Bool.false_ne_true, hfind]
    rw [if_pos hm]
  · intro hm
    rw [download_video, if_neg Bool.false_ne_true, hfind]
    rw [if_neg (by rw [hm]; exact Bool.false_ne_true)]
  · intro e1 e2
    intro hcon
    cases hcon

/-- Witness: claim9_classification at empty staging with a marker-bearing
stderr text. -/
theorem claim9_witness :
    (download_video ("v") ([] : Staging) false ("ERROR: Video unavailable")).status
      = DVOutcome.unavailable ("Video unavailable") :=
  (claim9_classification ("v") ([] : Staging) ("ERROR: Video unavailable")
    (by decide)).1 (by decide)

/-- C10: the validity test is strictly greater-than, so candidates of size
exactly 10000 bytes are invalid and the outcome is never Success. -/
theorem claim10_boundary (vid : String) (st : Staging) (stderr : String)
    (h : ∀ ext ∈ checkExts, fsExists st (vid ++ ext) = true →
      fsGetSize st (vid ++ ext) = 10000) :
    (download_video vid st false stderr).status.isSuccess = false := by
  have hfind : findActualExt vid st = none :=
    findActualExt_none vid st (fun ext hext he => by
      have := h ext hext he
      omega)
  rw [download_video, if_neg Bool.false_ne_true, hfind]
  split
  · rename_i heq
    cases heq
  · split <;> rfl

/-- Witness: claim10_boundary at a staging directory holding an exactly
10000-byte file at the expected path. -/
theorem claim10_witness :
    (download_video ("v") ([(("v.mp4" : String), 10000)]) false ("")).status.isSuccess
      = false :=
  claim10_boundary ("v") ([(("v.mp4" : String), 10000)]) ("") (by decide)

/-! ### Concurrency coordinator: run_download of download_manager.py

The worker pool is modelled by a deterministic completion schedule: the
list of in-flight futures completes in submission order, one per loop
iteration (a legal schedule of the polling loop, which collects whichever
futures are done).  Each work item carries its download outcome and
whether a valid artifact already exists at its output path (the
already-exists skip check); the external world is this oracle.  The stop
flag is a function of the iteration counter.  The coordinator marks the
ledger on each processed result, stops dispatching when the success target
is reached (cancelling and dropping the in-flight futures, as the source
does) or when the stop flag is set (abandoning the polling loop). -/

structure WorkItem where
  vid : String
  preExisting : Bool
  result : DVOutcome
deriving DecidableEq

structure RunState where
  ledger : Ledger
  futures : List WorkItem
  queue : List WorkItem
  successCount : Nat
  failCount : Nat
  dispatched : List String
  iter : Nat
deriving DecidableEq

/-- Submitting the next queue item: an item whose valid artifact already
exists is marked completed without dispatch; otherwise it is dispatched to
the pool. -/
def submitOne (s : RunState) (w : WorkItem) (rest : List WorkItem) : RunState :=
  if w.preExisting then
    { s with
        queue := rest
        ledger := mark_completed s.ledger w.vid }
  else
    { s with
        queue := rest
        futures := s.futures ++ [w]
        dispatched := s.dispatched ++ [w.vid] }

/-- The initial submission loop: workers * 2 attempts to pull from the
queue. -/
def initialSubmit : Nat → RunState → RunState
  | 0, s => s
  | n + 1, s =>
    match s.queue with
    | [] => s
    | w :: rest => initialSubmit n (submitOne s w rest)

/-- The refill after one processed result: submit one more item unless the
target is reached or the stop flag is set. -/
def refillOne (target : Nat) (stopNow : Bool) (s : RunState) : RunState :=
  if s.successCount < target ∧ stopNow = false then
    match s.queue with
    | [] => s
    | w :: rest => submitOne s w rest
  else s

/-- Processing of one completed future: on success mark completed, count
it, and either clear the remaining futures (target reached: the source
cancels them and clears the dict) or refill; on any other outcome mark
failed with the carried error text and refill. -/
def stepState (target : Nat) (stopNow : Bool) (w : WorkItem)
    (fs : List WorkItem) (s : RunState) : RunState :=
  if w.result.isSuccess then
    if target ≤ s.successCount + 1 then
      { s with
          futures := []
          iter := s.iter + 1
          successCount := s.successCount + 1
          ledger := mark_completed s.ledger w.vid }
    else
      refillOne target stopNow
        { s with
            futures := fs
            iter := s.iter + 1
            successCount := s.successCount + 1
            ledger := mark_completed s.ledger w.vid }
  else
    refillOne target stopNow
      { s with
          futures := fs
          iter := s.iter + 1
          failCount := s.failCount + 1
          ledger := mark_failed s.ledger w.vid w.result.errText }

/-- The polling loop: while futures remain and the stop flag is unset,
process the oldest future. -/
def runLoop (target : Nat) (stop : Nat → Bool) : Nat → RunState → RunState
  | 0, s => s
  | fuel + 1, s =>
    match s.futures with
    | [] => s
    | w :: fs =>
      if stop s.iter then s
      else runLoop target stop fuel (stepState target (stop s.iter) w fs s)

/-- run_download: initial submission then the polling loop, with enough
fuel for every possible iteration. -/
def runDownload (workers target : Nat) (stop : Nat → Bool) (lg : Ledger)
    (items : List WorkItem) : RunState :=
  let s0 : RunState :=
    { ledger := lg, futures := [], queue := items, successCount := 0,
      failCount := 0, dispatched := [], iter := 0 }
  let s1 := initialSubmit (workers * 2) s0
  runLoop target stop (s1.futures.length + s1.queue.length) s1

/-- A work item has a terminal record in the ledger: its id is a completed
log line, or some failed log line carries it before the first tab. -/
def recordedIn (lg : Ledger) (v : String) : Prop :=
  v ∈ lg.completedLog ∨ ∃ l ∈ lg.failedLog, firstTabField l = v

instance (lg : Ledger) (v : String) : Decidable (recordedIn lg v) := by
  unfold recordedIn
  infer_instance

/-- Number of terminal ledger entries recorded for an id. -/
def termCount (lg : Ledger) (v : String) : Nat :=
  lg.completedLog.count v + lg.failedLog.countP (fun l => firstTabField l == v)

def vidCount (l : List WorkItem) (v : String) : Nat :=
  (l.map WorkItem.vid).count v

/-! ### Unfolding lemmas for the coordinator -/

theorem initialSubmit_succ_nil (n : Nat) (s : RunState) (h : s.queue = []) :
    initialSubmit (n + 1) s = s := by
  rw [initialSubmit, h]

theorem initialSubmit_succ_cons (n : Nat) (s : RunState) (w : WorkItem)
    (rest : List WorkItem) (h : s.queue = w :: rest) :
    initialSubmit (n + 1) s = initialSubmit n (submitOne s w rest) := by
  rw [initialSubmit, h]

theorem runLoop_succ_nil (target : Nat) (stop : Nat → Bool) (fuel : Nat)
    (s : RunState) (h : s.futures = []) :
    runLoop target stop (fuel + 1) s = s := by
  rw [runLoop, h]

theorem runLoop_succ_cons (target : Nat) (stop : Nat → Bool) (fuel : Nat)
    (s : RunState) (w : WorkItem) (fs : List WorkItem) (h : s.futures = w :: fs) :
    runLoop target stop (fuel + 1) s
      = if stop s.iter then s
        else runLoop target stop fuel (stepState target (stop s.iter) w fs s) := by
  rw [runLoop, h]


/-! ### Coordinator invariants -/

/-- Every dispatched id is either recorded in the ledger or still in
flight. -/
def C4Inv (s : RunState) : Prop :=
  ∀ v ∈ s.dispatched, recordedIn s.ledger v ∨ v ∈ s.futures.map WorkItem.vid

/-- All in-flight and queued ids are tab-free. -/
def TabInv (s : RunState) : Prop :=
  (∀ w ∈ s.futures, tabFree w.vid) ∧ (∀ w ∈ s.queue, tabFree w.vid)

/-- Per-id conservation: terminal records plus in-flight plus queued
occurrences never exceed the occurrences in the input list, and likewise
dispatches plus queued occurrences. -/
def C6Inv (items : List WorkItem) (s : RunState) : Prop :=
  ∀ v : String,
    termCount s.ledger v + vidCount s.futures v + vidCount s.queue v
        ≤ vidCount items v ∧
    s.dispatched.count v + vidCount s.queue v ≤ vidCount items v

def stMeasure (s : RunState) : Nat := s.futures.length + s.queue.length

theorem recordedIn_mark_completed_mono (lg : Ledger) (x v : String)
    (h : recordedIn lg v) : recordedIn (mark_completed lg x) v := by
  rcases h with h | h
  · exact Or.inl (List.mem_append_left _ h)
  · exact Or.inr h

theorem recordedIn_mark_failed_mono (lg : Ledger) (x e v : String)
    (h : recordedIn lg v) : recordedIn (mark_failed lg x e) v := by
  rcases h with h | h
  · exact Or.inl h
  · obtain ⟨l, hl, hlv⟩ := h
    exact Or.inr ⟨l, List.mem_append_left _ hl, hlv⟩

theorem recordedIn_mark_completed_self (lg : Ledger) (v : String) :
    recordedIn (mark_completed lg v) v :=
  Or.inl (List.mem_append_right _ (by simp))

theorem recordedIn_mark_failed_self (lg : Ledger) (v e : String)
    (hv : tabFree v) : recordedIn (mark_failed lg v e) v :=
  Or.inr ⟨v ++ "\t" ++ e, List.mem_append_right _ (by simp),
    firstTabField_line v e hv⟩

theorem termCount_mark_completed (lg : Ledger) (x v : String) :
    termCount (mark_completed lg x) v
      = termCount lg v + (if x == v then 1 else 0) := by
  show (lg.completedLog ++ [x]).count v + lg.failedLog.countP _ = _
  rw [List.count_append, List.count_cons, List.count_nil]
  rw [termCount]
  omega

theorem termCount_mark_failed (lg : Ledger) (x e v : String) (hx : tabFree x) :
    termCount (mark_failed lg x e) v
      = termCount lg v + (if x == v then 1 else 0) := by
  show lg.completedLog.count v
      + (lg.failedLog ++ [x ++ "\t" ++ e]).countP (fun l => firstTabField l == v) = _
  rw [List.countP_append, List.countP_cons, List.countP_nil]
  rw [firstTabField_line x e hx, termCount]
  omega

theorem vidCount_nil (v : String) : vidCount [] v = 0 := rfl

theorem vidCount_cons (w : WorkItem) (l : List WorkItem) (v : String) :
    vidCount (w :: l) v = vidCount l v + (if w.vid == v then 1 else 0) := by
  rw [vidCount, vidCount, List.map_cons, List.count_cons]

theorem vidCount_append (l1 l2 : List WorkItem) (v : String) :
    vidCount (l1 ++ l2) v = vidCount l1 v + vidCount l2 v := by
  rw [vidCount, vidCount, vidCount, List.map_append, List.count_append]

theorem strCount_append_one (l : List String) (x v : String) :
    (l ++ [x]).count v = l.count v + (if x == v then 1 else 0) := by
  rw [List.count_append, List.count_cons, List.count_nil]
  omega

/-! ### Invariant preservation through the coordinator steps -/

theorem submitOne_C4Inv (s : RunState) (w : WorkItem) (rest : List WorkItem)
    (hInv : C4Inv s) : C4Inv (submitOne s w rest) := by
  rw [submitOne]
  by_cases hw : w.preExisting = true
  · rw [if_pos hw]
    intro v hv
    rcases hInv v hv with h | h
    · exact Or.inl (recordedIn_mark_completed_mono _ _ _ h)
    · exact Or.inr h
  · rw [if_neg hw]
    intro v hv
    rcases List.mem_append.mp hv with hv2 | hv2
    · rcases hInv v hv2 with h | h
      · exact Or.inl h
      · exact Or.inr (by rw [List.map_append]; exact List.mem_append_left _ h)
    · rw [List.mem_singleton] at hv2
      subst hv2
      exact Or.inr (by rw [List.map_append]; exact List.mem_append_right _ (by simp))

theorem submitOne_TabInv (s : RunState) (w : WorkItem) (rest : List WorkItem)
    (hq : s.queue = w :: rest) (h : TabInv s) : TabInv (submitOne s w rest) := by
  have hqs : ∀ w2 ∈ rest, tabFree w2.vid := by
    intro w2 hw2
    exact h.2 w2 (by rw [hq]; exact List.mem_cons_of_mem _ hw2)
  have hwv : tabFree w.vid := h.2 w (by rw [hq]; simp)
  rw [submitOne]
  by_cases hw : w.preExisting = true
  · rw [if_pos hw]
    exact ⟨h.1, hqs⟩
  · rw [if_neg hw]
    refine ⟨?_, hqs⟩
    intro w2 hw2
    rcases List.mem_append.mp hw2 with h2 | h2
    · exact h.1 w2 h2
    · rw [List.mem_singleton] at h2
      subst h2
      exact hwv

theorem submitOne_C6Inv (items : List WorkItem) (s : RunState) (w : WorkItem)
    (rest : List WorkItem) (hq : s.queue = w :: rest) (h : C6Inv items s) :
    C6Inv items (submitOne s w rest) := by
  rw [submitOne]
  by_cases hw : w.preExisting = true
  · rw [if_pos hw]
    intro v
    obtain ⟨h1, h2⟩ := h v
    rw [hq, vidCount_cons] at h1 h2
    constructor
    · show termCount (mark_completed s.ledger w.vid) v + vidCount s.futures v
        + vidCount rest v ≤ vidCount items v
      rw [termCount_mark_completed]
      omega
    · show s.dispatched.count v + vidCount rest v ≤ vidCount items v
      omega
  · rw [if_neg hw]
    intro v
    obtain ⟨h1, h2⟩ := h v
    rw [hq, vidCount_cons] at h1 h2
    constructor
    · show termCount s.ledger v + vidCount (s.futures ++ [w]) v
        + vidCount rest v ≤ vidCount items v
      rw [vidCount_append, vidCount_cons, vidCount_nil]
      omega
    · show (s.dispatched ++ [w.vid]).count v + vidCount rest v ≤ vidCount items v
      rw [strCount_append_one]
      omega

theorem refillOne_C4Inv (t : Nat) (b : Bool) (s : RunState) (hInv : C4Inv s) :
    C4Inv (refillOne t b s) := by
  by_cases hcond : s.successCount < t ∧ b = false
  · cases hq : s.queue with
    | nil => rw [refillOne, if_pos hcond, hq]; exact hInv
    | cons w rest =>
      rw [refillOne, if_pos hcond, hq]
      exact submitOne_C4Inv s w rest hInv
  · rw [refillOne, if_neg hcond]; exact hInv

theorem refillOne_TabInv (t : Nat) (b : Bool) (s : RunState) (h : TabInv s) :
    TabInv (refillOne t b s) := by
  by_cases hcond : s.successCount < t ∧ b = false
  · cases hq : s.queue with
    | nil => rw [refillOne, if_pos hcond, hq]; exact h
    | cons w rest =>
      rw [refillOne, if_pos hcond, hq]
      exact submitOne_TabInv s w rest hq h
  · rw [refillOne, if_neg hcond]; exact h

theorem refillOne_C6Inv (items : List WorkItem) (t : Nat) (b : Bool)
    (s : RunState) (h : C6Inv items s) : C6Inv items (refillOne t b s) := by
  by_cases hcond : s.successCount < t ∧ b = false
  · cases hq : s.queue with
    | nil => rw [refillOne, if_pos hcond, hq]; exact h
    | cons w rest =>
      rw [refillOne, if_pos hcond, hq]
      exact submitOne_C6Inv items s w rest hq h
  · rw [refillOne, if_neg hcond]; exact h

theorem submitOne_success (s : RunState) (w : WorkItem) (rest : List WorkItem) :
    (submitOne s w rest).successCount = s.successCount := by
  rw [submitOne]; split <;> rfl

theorem refillOne_success (t : Nat) (b : Bool) (s : RunState) :
    (refillOne t b s).successCount = s.successCount := by
  by_cases hcond : s.successCount < t ∧ b = false
  · cases hq : s.queue with
    | nil => rw [refillOne, if_pos hcond, hq]
    | cons w rest =>
      rw [refillOne, if_pos hcond, hq]
      exact submitOne_success s w rest
  · rw [refillOne, if_neg hcond]

theorem submitOne_measure (s : RunState) (w : WorkItem) (rest : List WorkItem)
    (hq : s.queue = w :: rest) :
    stMeasure (submitOne s w rest) ≤ stMeasure s := by
  rw [submitOne]
  by_cases hw : w.preExisting = true
  · rw [if_pos hw]
    show s.futures.length + rest.length ≤ stMeasure s
    rw [stMeasure, hq, List.length_cons]
    omega
  · rw [if_neg hw]
    show (s.futures ++ [w]).length + rest.length ≤ stMeasure s
    rw [List.length_append, stMeasure, hq, List.length_cons]
    simp
    omega

theorem refillOne_measure (t : Nat) (b : Bool) (s : RunState) :
    stMeasure (refillOne t b s) ≤ stMeasure s := by
  by_cases hcond : s.successCount < t ∧ b = false
  · cases hq : s.queue with
    | nil => rw [refillOne, if_pos hcond, hq]
    | cons w rest =>
      rw [refillOne, if_pos hcond, hq]
      exact submitOne_measure s w rest hq
  · rw [refillOne, if_neg hcond]


theorem stepState_success_ge (t : Nat) (b : Bool) (w : WorkItem)
    (fs : List WorkItem) (s : RunState) :
    s.successCount ≤ (stepState t b w fs s).successCount := by
  rw [stepState]
  by_cases hres : w.result.isSuccess = true
  · rw [if_pos hres]
    by_cases htar : t ≤ s.successCount + 1
    · rw [if_pos htar]
      show s.successCount ≤ s.successCount + 1
      omega
    · rw [if_neg htar, refillOne_success]
      show s.successCount ≤ s.successCount + 1
      omega
  · rw [if_neg hres, refillOne_success]

theorem stepState_measure (t : Nat) (b : Bool) (w : WorkItem)
    (fs : List WorkItem) (s : RunState) (hfu : s.futures = w :: fs) :
    stMeasure (stepState t b w fs s) + 1 ≤ stMeasure s := by
  have hm : stMeasure s = fs.length + 1 + s.queue.length := by
    rw [stMeasure, hfu, List.length_cons]
  rw [stepState]
  by_cases hres : w.result.isSuccess = true
  · rw [if_pos hres]
    by_cases htar : t ≤ s.successCount + 1
    · rw [if_pos htar]
      show stMeasure { s with
          futures := []
          iter := s.iter + 1
          successCount := s.successCount + 1
          ledger := mark_completed s.ledger w.vid } + 1 ≤ stMeasure s
      rw [stMeasure]
      show ([] : List WorkItem).length + s.queue.length + 1 ≤ stMeasure s
      rw [List.length_nil]
      omega
    · rw [if_neg htar]
      have := refillOne_measure t b { s with
          futures := fs
          iter := s.iter + 1
          successCount := s.successCount + 1
          ledger := mark_completed s.ledger w.vid }
      have hm2 : stMeasure { s with
          futures := fs
          iter := s.iter + 1
          successCount := s.successCount + 1
          ledger := mark_completed s.ledger w.vid } = fs.length + s.queue.length := rfl
      omega
  · rw [if_neg hres]
    have := refillOne_measure t b { s with
        futures := fs
        iter := s.iter + 1
        failCount := s.failCount + 1
        ledger := mark_failed s.ledger w.vid w.result.errText }
    have hm2 : stMeasure { s with
        futures := fs
        iter := s.iter + 1
        failCount := s.failCount + 1
        ledger := mark_failed s.ledger w.vid w.result.errText }
          = fs.length + s.queue.length := rfl
    omega

theorem stepState_C4Inv (t : Nat) (b : Bool) (w : WorkItem)
    (fs : List WorkItem) (s : RunState) (hfu : s.futures = w :: fs)
    (hInv : C4Inv s) (htab : TabInv s) :
    C4Inv (stepState t b w fs s) ∨ t ≤ (stepState t b w fs s).successCount := by
  have hmemfut : ∀ v, v ∈ s.futures.map WorkItem.vid →
      v = w.vid ∨ v ∈ fs.map WorkItem.vid := by
    intro v h
    rw [hfu, List.map_cons] at h
    exact List.mem_cons.mp h
  rw [stepState]
  by_cases hres : w.result.isSuccess = true
  · rw [if_pos hres]
    by_cases htar : t ≤ s.successCount + 1
    · rw [if_pos htar]
      right
      exact htar
    · rw [if_neg htar]
      left
      apply refillOne_C4Inv
      intro v hv
      rcases hInv v hv with h | h
      · exact Or.inl (recordedIn_mark_completed_mono _ _ _ h)
      · rcases hmemfut v h with rfl | h2
        · exact Or.inl (recordedIn_mark_completed_self _ _)
        · exact Or.inr h2
  · rw [if_neg hres]
    left
    apply refillOne_C4Inv
    intro v hv
    rcases hInv v hv with h | h
    · exact Or.inl (recordedIn_mark_failed_mono _ _ _ _ h)
    · rcases hmemfut v h with rfl | h2
      · exact Or.inl (recordedIn_mark_failed_self _ _ _
          (htab.1 w (by rw [hfu]; simp)))
      · exact Or.inr h2

theorem stepState_TabInv (t : Nat) (b : Bool) (w : WorkItem)
    (fs : List WorkItem) (s : RunState) (hfu : s.futures = w :: fs)
    (htab : TabInv s) : TabInv (stepState t b w fs s) := by
  have hfs : ∀ w2 ∈ fs, tabFree w2.vid := by
    intro w2 hw2
    exact htab.1 w2 (by rw [hfu]; exact List.mem_cons_of_mem _ hw2)
  rw [stepState]
  by_cases hres : w.result.isSuccess = true
  · rw [if_pos hres]
    by_cases htar : t ≤ s.successCount + 1
    · rw [if_pos htar]
      exact ⟨by intro w2 hw2; simp at hw2, htab.2⟩
    · rw [if_neg htar]
      exact refillOne_TabInv _ _ _ ⟨hfs, htab.2⟩
  · rw [if_neg hres]
    exact refillOne_TabInv _ _ _ ⟨hfs, htab.2⟩

theorem stepState_C6Inv (items : List WorkItem) (t : Nat) (b : Bool)
    (w : WorkItem) (fs : List WorkItem) (s : RunState)
    (hfu : s.futures = w :: fs) (htab : TabInv s) (h : C6Inv items s) :
    C6Inv items (stepState t b w fs s) := by
  have hwt : tabFree w.vid := htab.1 w (by rw [hfu]; simp)
  rw [stepState]
  by_cases hres : w.result.isSuccess = true
  · rw [if_pos hres]
    by_cases htar : t ≤ s.successCount + 1
    · rw [if_pos htar]
      intro v
      obtain ⟨h1, h2⟩ := h v
      rw [hfu, vidCount_cons] at h1
      constructor
      · show termCount (mark_completed s.ledger w.vid) v + vidCount [] v
          + vidCount s.queue v ≤ vidCount items v
        rw [termCount_mark_completed, vidCount_nil]
        omega
      · exact h2
    · rw [if_neg htar]
      apply refillOne_C6Inv
      intro v
      obtain ⟨h1, h2⟩ := h v
      rw [hfu, vidCount_cons] at h1
      constructor
      · show termCount (mark_completed s.ledger w.vid) v + vidCount fs v
          + vidCount s.queue v ≤ vidCount items v
        rw [termCount_mark_completed]
        omega
      · exact h2
  · rw [if_neg hres]
    apply refillOne_C6Inv
    intro v
    obtain ⟨h1, h2⟩ := h v
    rw [hfu, vidCount_cons] at h1
    constructor
    · show termCount (mark_failed s.ledger w.vid w.result.errText) v
        + vidCount fs v + vidCount s.queue v ≤ vidCount items v
      rw [termCount_mark_failed _ _ _ _ hwt]
      omega
    · exact h2

/-! ### The polling loop -/

theorem runLoop_success_mono (t : Nat) (st : Nat → Bool) :
    ∀ (fuel : Nat) (s : RunState),
      s.successCount ≤ (runLoop t st fuel s).successCount := by
  intro fuel
  induction fuel with
  | zero => intro s; exact Nat.le_refl _
  | succ f ih =>
    intro s
    cases hfu : s.futures with
    | nil => rw [runLoop_succ_nil t st f s hfu]
    | cons w fs =>
      rw [runLoop_succ_cons t st f s w fs hfu]
      by_cases hstop : st s.iter = true
      · rw [if_pos hstop]
      · rw [if_neg hstop]
        exact Nat.le_trans (stepState_success_ge t (st s.iter) w fs s) (ih _)

theorem runLoop_C4Inv (t : Nat) (st : Nat → Bool) :
    ∀ (fuel : Nat) (s : RunState), C4Inv s → TabInv s →
      (C4Inv (runLoop t st fuel s) ∧ TabInv (runLoop t st fuel s))
        ∨ t ≤ (runLoop t st fuel s).successCount := by
  intro fuel
  induction fuel with
  | zero => intro s h1 h2; exact Or.inl ⟨h1, h2⟩
  | succ f ih =>
    intro s h1 h2
    cases hfu : s.futures with
    | nil =>
      rw [runLoop_succ_nil t st f s hfu]
      exact Or.inl ⟨h1, h2⟩
    | cons w fs =>
      rw [runLoop_succ_cons t st f s w fs hfu]
      by_cases hstop : st s.iter = true
      · rw [if_pos hstop]
        exact Or.inl ⟨h1, h2⟩
      · rw [if_neg hstop]
        rcases stepState_C4Inv t (st s.iter) w fs s hfu h1 h2 with hok | hge
        · exact ih _ hok (stepState_TabInv t (st s.iter) w fs s hfu h2)
        · right
          exact Nat.le_trans hge (runLoop_success_mono t st f _)

theorem runLoop_C6Inv (items : List WorkItem) (t : Nat) (st : Nat → Bool) :
    ∀ (fuel : Nat) (s : RunState), C6Inv items s → TabInv s →
      C6Inv items (runLoop t st fuel s) := by
  intro fuel
  induction fuel with
  | zero => intro s h _; exact h
  | succ f ih =>
    intro s h htab
    cases hfu : s.futures with
    | nil => rw [runLoop_succ_nil t st f s hfu]; exact h
    | cons w fs =>
      rw [runLoop_succ_cons t st f s w fs hfu]
      by_cases hstop : st s.iter = true
      · rw [if_pos hstop]; exact h
      · rw [if_neg hstop]
        exact ih _ (stepState_C6Inv items t (st s.iter) w fs s hfu htab h)
          (stepState_TabInv t (st s.iter) w fs s hfu htab)

theorem runLoop_drains (t : Nat) (st : Nat → Bool) (hstop : ∀ n, st n = false) :
    ∀ (fuel : Nat) (s : RunState), stMeasure s ≤ fuel →
      (runLoop t st fuel s).futures = [] := by
  intro fuel
  induction fuel with
  | zero =>
    intro s hm
    rw [stMeasure] at hm
    have : s.futures.length = 0 := by omega
    exact List.length_eq_zero.mp this
  | succ f ih =>
    intro s hm
    cases hfu : s.futures with
    | nil => rw [runLoop_succ_nil t st f s hfu]; exact hfu
    | cons w fs =>
      rw [runLoop_succ_cons t st f s w fs hfu, hstop s.iter,
        if_neg Bool.false_ne_true]
      apply ih
      have := stepState_measure t false w fs s hfu
      omega


theorem initialSubmit_C4Inv :
    ∀ (n : Nat) (s : RunState), C4Inv s → C4Inv (initialSubmit n s) := by
  intro n
  induction n with
  | zero => intro s h; exact h
  | succ m ih =>
    intro s h
    cases hq : s.queue with
    | nil => rw [initialSubmit_succ_nil m s hq]; exact h
    | cons w rest =>
      rw [initialSubmit_succ_cons m s w rest hq]
      exact ih _ (submitOne_C4Inv s w rest h)

theorem initialSubmit_TabInv :
    ∀ (n : Nat) (s : RunState), TabInv s → TabInv (initialSubmit n s) := by
  intro n
  induction n with
  | zero => intro s h; exact h
  | succ m ih =>
    intro s h
    cases hq : s.queue with
    | nil => rw [initialSubmit_succ_nil m s hq]; exact h
    | cons w rest =>
      rw [initialSubmit_succ_cons m s w rest hq]
      exact ih _ (submitOne_TabInv s w rest hq h)

theorem initialSubmit_C6Inv (items : List WorkItem) :
    ∀ (n : Nat) (s : RunState), C6Inv items s → C6Inv items (initialSubmit n s) := by
  intro n
  induction n with
  | zero => intro s h; exact h
  | succ m ih =>
    intro s h
    cases hq : s.queue with
    | nil => rw [initialSubmit_succ_nil m s hq]; exact h
    | cons w rest =>
      rw [initialSubmit_succ_cons m s w rest hq]
      exact ih _ (submitOne_C6Inv items s w rest hq h)

/-! ### Claims C4 and C6: coordinator recording guarantees -/

/-- C4 as literally stated fails: with one worker and a success target of
one, two items are dispatched to the pool, the first success reaches the
target, the coordinator cancels and clears the remaining futures, and the
second dispatched item ends the run with no ledger record and no counted
result. -/
theorem claim4_counterexample :
    (("b" : String) ∈ (runDownload 1 1 (fun _ => false)
        { completedLog := [], failedLog := [], pendingLog := some (["a", "b"]) }
        ([⟨"a", false, DVOutcome.success 1⟩,
          ⟨"b", false, DVOutcome.success 1⟩])).dispatched) ∧
    ¬ recordedIn (runDownload 1 1 (fun _ => false)
        { completedLog := [], failedLog := [], pendingLog := some (["a", "b"]) }
        ([⟨"a", false, DVOutcome.success 1⟩,
          ⟨"b", false, DVOutcome.success 1⟩])).ledger ("b") ∧
    (runDownload 1 1 (fun _ => false)
        { completedLog := [], failedLog := [], pendingLog := some (["a", "b"]) }
        ([⟨"a", false, DVOutcome.success 1⟩,
          ⟨"b", false, DVOutcome.success 1⟩])).successCount = 1 ∧
    (runDownload 1 1 (fun _ => false)
        { completedLog := [], failedLog := [], pendingLog := some (["a", "b"]) }
        ([⟨"a", false, DVOutcome.success 1⟩,
          ⟨"b", false, DVOutcome.success 1⟩])).failCount = 0 := by
  decide

/-- C4 (amended): when the run is not interrupted (the stop flag is never
set) and completes without reaching the success target, every dispatched
work item has a terminal record in the ledger.  When the coordinator does
stop early, in-flight items are dropped unrecorded, as the counterexample
shows: they remain pending for the next run. -/
theorem claim4_no_silent_drop (workers target : Nat) (stop : Nat → Bool)
    (lg : Ledger) (items : List WorkItem)
    (hstop : ∀ n, stop n = false)
    (htab : ∀ w ∈ items, tabFree w.vid)
    (hlt : (runDownload workers target stop lg items).successCount < target) :
    ∀ v ∈ (runDownload workers target stop lg items).dispatched,
      recordedIn (runDownload workers target stop lg items).ledger v := by
  intro v hv
  have h0 : C4Inv
      { ledger := lg, futures := [], queue := items, successCount := 0,
        failCount := 0, dispatched := [], iter := 0 } := by
    intro x hx
    exact absurd hx (List.not_mem_nil x)
  have ht0 : TabInv
      { ledger := lg, futures := [], queue := items, successCount := 0,
        failCount := 0, dispatched := [], iter := 0 } := by
    constructor
    · intro w hw
      exact absurd hw (List.not_mem_nil w)
    · exact htab
  have h1 := initialSubmit_C4Inv (workers * 2) _ h0
  have ht1 := initialSubmit_TabInv (workers * 2) _ ht0
  have hrun : runDownload workers target stop lg items
      = runLoop target stop
          ((initialSubmit (workers * 2)
              { ledger := lg, futures := [], queue := items, successCount := 0,
                failCount := 0, dispatched := [], iter := 0 }).futures.length
            + (initialSubmit (workers * 2)
              { ledger := lg, futures := [], queue := items, successCount := 0,
                failCount := 0, dispatched := [], iter := 0 }).queue.length)
          (initialSubmit (workers * 2)
            { ledger := lg, futures := [], queue := items, successCount := 0,
              failCount := 0, dispatched := [], iter := 0 }) := rfl
  rw [hrun] at hlt hv ⊢
  set s1 : RunState := initialSubmit (workers * 2)
    { ledger := lg, futures := [], queue := items, successCount := 0,
      failCount := 0, dispatched := [], iter := 0 } with hs1
  rcases runLoop_C4Inv target stop (s1.futures.length + s1.queue.length) s1
      h1 ht1 with ⟨hInv, _⟩ | hge
  · have hnil := runLoop_drains target stop hstop
      (s1.futures.length + s1.queue.length) s1 (Nat.le_refl (stMeasure s1))
    rcases hInv v hv with h | h
    · exact h
    · rw [hnil] at h
      simp at h
  · omega

/-- Witness: claim4_no_silent_drop on a run of one failing item that ends
below its target with no interrupt: the item is recorded. -/
theorem claim4_witness :
    recordedIn (runDownload 1 5 (fun _ => false)
      { completedLog := [], failedLog := [], pendingLog := some (["a"]) }
      ([⟨"a", false, DVOutcome.failure ("e")⟩])).ledger ("a") :=
  claim4_no_silent_drop 1 5 (fun _ => false)
    { completedLog := [], failedLog := [], pendingLog := some (["a"]) }
    ([⟨"a", false, DVOutcome.failure ("e")⟩])
    (fun _ => rfl) (by decide) (by decide) ("a") (by decide)

/-- C6 as literally stated fails: the coordinator does not remove an id
from the pending view before dispatch (removal happens only when an
outcome is recorded), so a duplicated pending id is dispatched twice, is
in flight on two workers at once after the initial submission, and
receives two terminal completed entries in one run. -/
theorem claim6_counterexample :
    ((initialSubmit 2
        { ledger := { completedLog := [], failedLog := [], pendingLog := some (["a", "a"]) },
          futures := [],
          queue := [⟨"a", false, DVOutcome.success 5⟩, ⟨"a", false, DVOutcome.success 5⟩],
          successCount := 0, failCount := 0, dispatched := [],
          iter := 0 }).futures.map WorkItem.vid = ["a", "a"]) ∧
    termCount (runDownload 1 10 (fun _ => false)
        { completedLog := [], failedLog := [], pendingLog := some (["a", "a"]) }
        ([⟨"a", false, DVOutcome.success 5⟩,
          ⟨"a", false, DVOutcome.success 5⟩])).ledger ("a") = 2 ∧
    (runDownload 1 10 (fun _ => false)
        { completedLog := [], failedLog := [], pendingLog := some (["a", "a"]) }
        ([⟨"a", false, DVOutcome.success 5⟩,
          ⟨"a", false, DVOutcome.success 5⟩])).ledger.completedLog
      = ["a", "a"] := by
  decide

/-- C6 (amended): when the work list of a run carries each id at most once
(and ids are tab-free) and the run starts with empty terminal logs, each
id receives at most one terminal ledger entry and is dispatched at most
once; the pending view is only pruned when an outcome is recorded, not
before dispatch. -/
theorem claim6_single_record (workers target : Nat) (stop : Nat → Bool)
    (lg : Ledger) (items : List WorkItem)
    (hnd : (items.map WorkItem.vid).Nodup)
    (htab : ∀ w ∈ items, tabFree w.vid)
    (hc0 : lg.completedLog = []) (hf0 : lg.failedLog = []) (v : String) :
    termCount (runDownload workers target stop lg items).ledger v ≤ 1 ∧
    (runDownload workers target stop lg items).dispatched.count v ≤ 1 := by
  have h0 : C6Inv items
      { ledger := lg, futures := [], queue := items, successCount := 0,
        failCount := 0, dispatched := [], iter := 0 } := by
    intro x
    constructor
    · show termCount lg x + vidCount [] x + vidCount items x ≤ vidCount items x
      rw [termCount, hc0, hf0, List.count_nil, List.countP_nil, vidCount_nil]
      omega
    · show ([] : List String).count x + vidCount items x ≤ vidCount items x
      rw [List.count_nil]
      omega
  have ht0 : TabInv
      { ledger := lg, futures := [], queue := items, successCount := 0,
        failCount := 0, dispatched := [], iter := 0 } := by
    constructor
    · intro w hw
      exact absurd hw (List.not_mem_nil w)
    · exact htab
  have h1 := initialSubmit_C6Inv items (workers * 2) _ h0
  have ht1 := initialSubmit_TabInv (workers * 2) _ ht0
  have hrun : runDownload workers target stop lg items
      = runLoop target stop
          ((initialSubmit (workers * 2)
              { ledger := lg, futures := [], queue := items, successCount := 0,
                failCount := 0, dispatched := [], iter := 0 }).futures.length
            + (initialSubmit (workers * 2)
              { ledger := lg, futures := [], queue := items, successCount := 0,
                failCount := 0, dispatched := [], iter := 0 }).queue.length)
          (initialSubmit (workers * 2)
            { ledger := lg, futures := [], queue := items, successCount := 0,
              failCount := 0, dispatched := [], iter := 0 }) := rfl
  rw [hrun]
  set s1 : RunState := initialSubmit (workers * 2)
    { ledger := lg, futures := [], queue := items, successCount := 0,
      failCount := 0, dispatched := [], iter := 0 } with hs1
  have hfin := runLoop_C6Inv items target stop
    (s1.futures.length + s1.queue.length) s1 h1 ht1
  obtain ⟨hA, hB⟩ := hfin v
  have hcnt : vidCount items v ≤ 1 := List.nodup_iff_count_le_one.mp hnd v
  constructor
  · omega
  · omega

/-- Witness: claim6_single_record on a two-item run with distinct ids. -/
theorem claim6_witness :
    termCount (runDownload 2 9 (fun _ => false)
      { completedLog := [], failedLog := [], pendingLog := some (["a", "b"]) }
      ([⟨"a", false, DVOutcome.success 3⟩,
        ⟨"b", false, DVOutcome.failure ("x")⟩])).ledger ("a") ≤ 1 ∧
    (runDownload 2 9 (fun _ => false)
      { completedLog := [], failedLog := [], pendingLog := some (["a", "b"]) }
      ([⟨"a", false, DVOutcome.success 3⟩,
        ⟨"b", false, DVOutcome.failure ("x")⟩])).dispatched.count ("a") ≤ 1 :=
  claim6_single_record 2 9 (fun _ => false)
    { completedLog := [], failedLog := [], pendingLog := some (["a", "b"]) }
    ([⟨"a", false, DVOutcome.success 3⟩,
      ⟨"b", false, DVOutcome.failure ("x")⟩])
    (by decide) (by decide) rfl rfl ("a")


end VideoDL
